import Mathlib

/-!
Shallow embedding of `qp-human-checkphrase` (`src/lib.rs`) and verification of
its specification claims.

The crate exposes two functions:
* `load_word_list` — reads `final_wordlist.txt`, requires exactly 2048 lines;
* `address_to_checksum` — PBKDF2-HMAC-SHA256 key stretching of the address,
  big-endian interpretation of the 7-byte key, one low bit discarded, five
  11-bit groups used as indices into the word list.

Bytes are modelled as `Nat` (with explicit `% 256` where the code produces
bytes); the Rust `u128` accumulator is modelled with explicit `% 2^128` where
Rust's shift discards high bits; the `as usize` cast is `% 2^64`.  A Rust
panic (out-of-bounds index) is modelled as `Option.none`.
-/

namespace Checkphrase

/-! ### 32-bit helpers for SHA-256 (the `sha2` crate's compression function) -/

/-- Truncate to a 32-bit word. -/
def w32 (n : Nat) : Nat := n % 4294967296

/-- Rotate a 32-bit word right by `n`. -/
def rotr (n x : Nat) : Nat := w32 ((x >>> n) ||| (x <<< (32 - n)))

def ch (x y z : Nat) : Nat := (x &&& y) ^^^ ((x ^^^ 4294967295) &&& z)

def maj (x y z : Nat) : Nat := (x &&& y) ^^^ (x &&& z) ^^^ (y &&& z)

def bigSig0 (x : Nat) : Nat := rotr 2 x ^^^ rotr 13 x ^^^ rotr 22 x

def bigSig1 (x : Nat) : Nat := rotr 6 x ^^^ rotr 11 x ^^^ rotr 25 x

def smallSig0 (x : Nat) : Nat := rotr 7 x ^^^ rotr 18 x ^^^ (x >>> 3)

def smallSig1 (x : Nat) : Nat := rotr 17 x ^^^ rotr 19 x ^^^ (x >>> 10)

/-- The 64 SHA-256 round constants of FIPS 180-4, in decimal. -/
def K256 : List Nat :=
  [1116352408, 1899447441, 3049323471, 3921009573,
   961987163, 1508970993, 2453635748, 2870763221,
   3624381080, 310598401, 607225278, 1426881987,
   1925078388, 2162078206, 2614888103, 3248222580,
   3835390401, 4022224774, 264347078, 604807628,
   770255983, 1249150122, 1555081692, 1996064986,
   2554220882, 2821834349, 2952996808, 3210313671,
   3336571891, 3584528711, 113926993, 338241895,
   666307205, 773529912, 1294757372, 1396182291,
   1695183700, 1986661051, 2177026350, 2456956037,
   2730485921, 2820302411, 3259730800, 3345764771,
   3516065817, 3600352804, 4094571909, 275423344,
   430227734, 506948616, 659060556, 883997877,
   958139571, 1322822218, 1537002063, 1747873779,
   1955562222, 2024104815, 2227730452, 2361852424,
   2428436474, 2756734187, 3204031479, 3329325298]

/-- Big-endian byte serialisation of `n`, exactly `k` bytes (low `8*k` bits). -/
def natToBytesBE : Nat → Nat → List Nat
  | 0, _ => []
  | k + 1, n => natToBytesBE k (n / 256) ++ [n % 256]

/-- Group a byte list into big-endian 32-bit words. -/
def bytesToWords : List Nat → List Nat
  | a :: b :: c :: d :: rest =>
      (a * 16777216 + b * 65536 + c * 256 + d) :: bytesToWords rest
  | _ => []

/-- Extend the 16-word message schedule by `k` further words. -/
def extendSchedule : List Nat → Nat → List Nat
  | w, 0 => w
  | w, k + 1 =>
      let n := w.length
      let next := w32 (smallSig1 (w.getD (n - 2) 0) + w.getD (n - 7) 0 +
        smallSig0 (w.getD (n - 15) 0) + w.getD (n - 16) 0)
      extendSchedule (w ++ [next]) k

/-- The eight SHA-256 working registers. -/
structure Hash8 where
  a : Nat
  b : Nat
  c : Nat
  d : Nat
  e : Nat
  f : Nat
  g : Nat
  h : Nat

/-- SHA-256 initial hash value (FIPS 180-4), in decimal. -/
def H0 : Hash8 :=
  ⟨1779033703, 3144134277, 1013904242, 2773480762,
   1359893119, 2600822924, 528734635, 1541459225⟩

/-- One pass of the 64 compression rounds, driven by the zipped
round-constant/schedule list. -/
def compressRounds : List (Nat × Nat) → Hash8 → Hash8
  | [], st => st
  | (k, w) :: rest, st =>
      let t1 := w32 (st.h + bigSig1 st.e + ch st.e st.f st.g + k + w)
      let t2 := w32 (bigSig0 st.a + maj st.a st.b st.c)
      compressRounds rest
        ⟨w32 (t1 + t2), st.a, st.b, st.c, w32 (st.d + t1), st.e, st.f, st.g⟩

/-- Process one 64-byte chunk. -/
def processChunk (h : Hash8) (chunk : List Nat) : Hash8 :=
  let w := extendSchedule (bytesToWords chunk) 48
  let st := compressRounds (K256.zip w) h
  ⟨w32 (h.a + st.a), w32 (h.b + st.b), w32 (h.c + st.c), w32 (h.d + st.d),
   w32 (h.e + st.e), w32 (h.f + st.f), w32 (h.g + st.g), w32 (h.h + st.h)⟩

/-- Process a padded message, 64 bytes at a time. -/
def processChunks (h : Hash8) (bytes : List Nat) : Hash8 :=
  match bytes with
  | [] => h
  | b :: rest =>
      processChunks (processChunk h (List.take 64 (b :: rest))) (List.drop 63 rest)
termination_by bytes.length
decreasing_by simp; omega

/-- SHA-256 padding: `0x80`, zeros to 56 mod 64, 8-byte big-endian bit length. -/
def padMessage (msg : List Nat) : List Nat :=
  msg ++ 0x80 :: List.replicate ((119 - msg.length % 64) % 64) 0 ++
    natToBytesBE 8 (8 * msg.length)

/-- The eight registers as a word list, big-endian order. -/
def hash8ToList (s : Hash8) : List Nat :=
  [s.a, s.b, s.c, s.d, s.e, s.f, s.g, s.h]

/-- SHA-256 of a byte string, as 32 bytes (the eight final registers,
each serialised big-endian). -/
def sha256 (msg : List Nat) : List Nat :=
  ((hash8ToList (processChunks H0 (padMessage msg))).map (natToBytesBE 4)).flatten

/-- HMAC-SHA256 (RFC 2104), the PRF used by `pbkdf2_hmac::<Sha256>`. -/
def hmacSha256 (key msg : List Nat) : List Nat :=
  let kb := if 64 < key.length then sha256 key else key
  let kpad := kb ++ List.replicate (64 - kb.length) 0
  let ipad := kpad.map (fun b => b ^^^ 0x36)
  let opad := kpad.map (fun b => b ^^^ 0x5c)
  sha256 (opad ++ sha256 (ipad ++ msg))

/-- PBKDF2 inner loop: `n` further PRF iterations, xor-accumulated into `acc`,
with `u` the previous `U` value. -/
def pbkdf2F (password u acc : List Nat) : Nat → List Nat
  | 0 => acc
  | n + 1 =>
      let u' := hmacSha256 password u
      pbkdf2F password u' (List.zipWith (fun a b => a ^^^ b) acc u') n

/-- PBKDF2 block `T_i` for a count of `c` iterations (RFC 2898). -/
def pbkdf2T (password salt : List Nat) (c i : Nat) : List Nat :=
  let u1 := hmacSha256 password (salt ++ natToBytesBE 4 i)
  pbkdf2F password u1 u1 (c - 1)

/-- The crate call `pbkdf2::pbkdf2_hmac::<Sha256>` filling a `dkLen`-byte
buffer. -/
def pbkdf2HmacSha256 (password salt : List Nat) (c dkLen : Nat) : List Nat :=
  (List.flatten ((List.range ((dkLen + 31) / 32)).map
    (fun j => pbkdf2T password salt c (j + 1)))).take dkLen

/-! ### UTF-8 (Rust `str::as_bytes`) -/

/-- UTF-8 encoding of one Unicode scalar value. -/
def charUtf8 (ch : Char) : List Nat :=
  let n := ch.toNat
  if n < 0x80 then [n]
  else if n < 0x800 then [0xC0 ||| (n >>> 6), 0x80 ||| (n &&& 0x3F)]
  else if n < 0x10000 then
    [0xE0 ||| (n >>> 12), 0x80 ||| ((n >>> 6) &&& 0x3F), 0x80 ||| (n &&& 0x3F)]
  else
    [0xF0 ||| (n >>> 18), 0x80 ||| ((n >>> 12) &&& 0x3F),
     0x80 ||| ((n >>> 6) &&& 0x3F), 0x80 ||| (n &&& 0x3F)]

/-- The UTF-8 bytes of a string (`address.as_bytes()`). -/
def strBytes (s : String) : List Nat := (s.data.map charUtf8).flatten

/-! ### The crate's constants (`src/lib.rs` lines 11–16) -/

def WORD_COUNT : Nat := 2048

def SALT : String := "human-readable-checksum"

def ITERATIONS : Nat := 40000

def CHECKSUM_LEN : Nat := 5

/-- Rust `(CHECKSUM_LEN * 11).div_ceil(8)`; `div_ceil` is
`(a + b - 1) / b`. -/
def KEY_BYTECOUNT : Nat := (CHECKSUM_LEN * 11 + 8 - 1) / 8

/-! ### `load_word_list` (`src/lib.rs` lines 18–39)

The function reads the file system; we model that state explicitly: whether
the word-list file exists, and the list of its lines when it does.  The two
`io::Error` values the function constructs are the constructors of
`LoadError`. -/

inductive LoadError where
  /-- Rust `ErrorKind::NotFound`: the word-list file does not exist. -/
  | notFound : LoadError
  /-- Rust `ErrorKind::InvalidData`: the file held `found` lines, not 2048. -/
  | wrongCount (found : Nat) : LoadError
deriving DecidableEq

def load_word_list (fileExists : Bool) (lines : List String) :
    Except LoadError (List String) :=
  if fileExists = false then .error .notFound
  else if lines.length ≠ WORD_COUNT then .error (.wrongCount lines.length)
  else .ok lines

/-! ### `address_to_checksum` (`src/lib.rs` lines 41–69) -/

/-- The key-stretched buffer: `pbkdf2_hmac::<Sha256>(address.as_bytes(),
SALT.as_bytes(), ITERATIONS, &mut key)` with `key: [u8; KEY_BYTECOUNT]`. -/
def derived_key (address : String) : List Nat :=
  pbkdf2HmacSha256 (strBytes address) (strBytes SALT) ITERATIONS KEY_BYTECOUNT

/-- Rust's `u128` modulus. -/
def u128Mod : Nat := 2 ^ 128

/-- Lines 48–51: `key_int = (key_int << 8) | byte as u128` over
`key.iter().take(KEY_BYTECOUNT)`, on a `u128` (shift discards high bits). -/
def key_int_of_bytes (key : List Nat) : Nat :=
  (key.take KEY_BYTECOUNT).foldl (fun acc b => ((acc <<< 8) % u128Mod) ||| b) 0

/-- Line 54: `key_int >>= (8 * KEY_BYTECOUNT) % 11`. -/
def key_int (address : String) : Nat :=
  key_int_of_bytes (derived_key address) >>> ((8 * KEY_BYTECOUNT) % 11)

/-- Lines 59–64: the five 11-bit indices, in extraction order; the
`as usize` cast is `% 2^64`. -/
def checksum_indices (address : String) : List Nat :=
  (List.range CHECKSUM_LEN).map (fun i =>
    ((key_int address >>> ((CHECKSUM_LEN - 1 - i) * 11)) &&& 0x7FF) % 2 ^ 64)

/-- Line 68: `indices.iter().map(|&i| word_list[i].clone()).collect()`;
the out-of-bounds panic is `none`. -/
def lookup_words (word_list : List String) : List Nat → Option (List String)
  | [] => some []
  | i :: rest =>
      match word_list[i]?, lookup_words word_list rest with
      | some w, some ws => some (w :: ws)
      | _, _ => none

def address_to_checksum (address : String) (word_list : List String) :
    Option (List String) :=
  lookup_words word_list (checksum_indices address)

/-! ### Spec-side definitions (for the refinement claims C3/C7)

These follow the spec's wording, to be compared with the definitions above:
"Interpret the `keyByteCount`-byte buffer as a single big-endian unsigned
integer", then shift and mask with no machine-width reductions. -/

/-- The plain big-endian value of a byte string (spec step 2). -/
def bytesBEtoNat (bs : List Nat) : Nat := bs.foldl (fun a b => a * 256 + b) 0

/-- The spec's index formula (steps 2–4): big-endian value, right shift by
`(8 * keyByteCount) mod 11`, then group `i` is an 11-bit mask after a shift
by `(checksumLength - 1 - i) * 11`. -/
def spec_index (key : List Nat) (i : Nat) : Nat :=
  ((bytesBEtoNat key >>> ((8 * KEY_BYTECOUNT) % 11)) >>>
    ((CHECKSUM_LEN - 1 - i) * 11)) &&& 0x7FF

/-! ### Structural lemmas -/

theorem natToBytesBE_length (k n : Nat) : (natToBytesBE k n).length = k := by
  induction k generalizing n with
  | zero => rfl
  | succ k ih => simp [natToBytesBE, ih]

theorem natToBytesBE_mem_lt {k n b : Nat} (hb : b ∈ natToBytesBE k n) :
    b < 256 := by
  induction k generalizing n with
  | zero => simp [natToBytesBE] at hb
  | succ k ih =>
    simp only [natToBytesBE, List.mem_append, List.mem_singleton] at hb
    rcases hb with hb | hb
    · exact ih hb
    · subst hb
      exact Nat.mod_lt _ (by norm_num)

theorem sha256_length (m : List Nat) : (sha256 m).length = 32 := by
  simp [sha256, hash8ToList, natToBytesBE_length]

theorem sha256_mem_lt {m : List Nat} {b : Nat} (hb : b ∈ sha256 m) :
    b < 256 := by
  simp only [sha256, List.mem_flatten, List.mem_map] at hb
  obtain ⟨l, ⟨w, _, rfl⟩, hbl⟩ := hb
  exact natToBytesBE_mem_lt hbl

theorem hmacSha256_length (k m : List Nat) : (hmacSha256 k m).length = 32 :=
  sha256_length _

theorem hmacSha256_mem_lt {k m : List Nat} {b : Nat}
    (hb : b ∈ hmacSha256 k m) : b < 256 :=
  sha256_mem_lt hb

theorem exists_of_mem_zipWith {α β γ : Type} {f : α → β → γ} {c : γ} :
    ∀ (l₁ : List α) (l₂ : List β), c ∈ List.zipWith f l₁ l₂ →
      ∃ a, a ∈ l₁ ∧ ∃ b, b ∈ l₂ ∧ c = f a b := by
  intro l₁
  induction l₁ with
  | nil => intro l₂ h; simp at h
  | cons a l₁ ih =>
    intro l₂ h
    cases l₂ with
    | nil => simp at h
    | cons b l₂ =>
      rw [List.zipWith_cons_cons, List.mem_cons] at h
      rcases h with h | h
      · exact ⟨a, List.mem_cons_self _ _, b, List.mem_cons_self _ _, h⟩
      · obtain ⟨x, hx, y, hy, hc⟩ := ih l₂ h
        exact ⟨x, List.mem_cons_of_mem _ hx, y, List.mem_cons_of_mem _ hy, hc⟩

theorem pbkdf2F_invariant (password : List Nat) :
    ∀ (n : Nat) (u acc : List Nat), acc.length = 32 → (∀ b ∈ acc, b < 256) →
      (pbkdf2F password u acc n).length = 32 ∧
        ∀ b ∈ pbkdf2F password u acc n, b < 256 := by
  intro n
  induction n with
  | zero => intro u acc h1 h2; exact ⟨h1, h2⟩
  | succ n ih =>
    intro u acc h1 h2
    simp only [pbkdf2F]
    apply ih
    · rw [List.length_zipWith, h1, hmacSha256_length]; omega
    · intro b hb
      obtain ⟨x, hx, y, hy, rfl⟩ := exists_of_mem_zipWith _ _ hb
      have hxor : x ^^^ y < 2 ^ 8 :=
        Nat.xor_lt_two_pow (by simpa using h2 x hx)
          (by simpa using hmacSha256_mem_lt hy)
      simpa using hxor

theorem pbkdf2T_invariant (p s : List Nat) (c i : Nat) :
    (pbkdf2T p s c i).length = 32 ∧ ∀ b ∈ pbkdf2T p s c i, b < 256 := by
  simp only [pbkdf2T]
  exact pbkdf2F_invariant p (c - 1) _ _ (hmacSha256_length _ _)
    (fun b hb => hmacSha256_mem_lt hb)

theorem KEY_BYTECOUNT_eq : KEY_BYTECOUNT = 7 := rfl

theorem CHECKSUM_LEN_eq : CHECKSUM_LEN = 5 := rfl

theorem WORD_COUNT_eq : WORD_COUNT = 2048 := rfl

theorem derived_key_spec (addr : String) :
    derived_key addr =
      (pbkdf2T (strBytes addr) (strBytes SALT) ITERATIONS 1).take 7 := by
  have h1 : List.range 1 = [0] := rfl
  simp [derived_key, pbkdf2HmacSha256, KEY_BYTECOUNT_eq, h1]

theorem derived_key_length (addr : String) :
    (derived_key addr).length = KEY_BYTECOUNT := by
  rw [derived_key_spec, List.length_take,
    (pbkdf2T_invariant (strBytes addr) (strBytes SALT) ITERATIONS 1).1]
  norm_num [KEY_BYTECOUNT_eq]

theorem derived_key_mem_lt {addr : String} {b : Nat}
    (hb : b ∈ derived_key addr) : b < 256 := by
  rw [derived_key_spec] at hb
  exact (pbkdf2T_invariant (strBytes addr) (strBytes SALT) ITERATIONS 1).2 b
    (List.take_subset _ _ hb)

theorem foldlBE_lt :
    ∀ (bs : List Nat) (acc : Nat), (∀ b ∈ bs, b < 256) →
      List.foldl (fun a b => a * 256 + b) acc bs <
        (acc + 1) * 256 ^ bs.length := by
  intro bs
  induction bs with
  | nil => intro acc _; simp
  | cons b rest ih =>
    intro acc h
    have hb : b < 256 := h b (List.mem_cons_self _ _)
    simp only [List.foldl_cons, List.length_cons]
    calc List.foldl (fun a b => a * 256 + b) (acc * 256 + b) rest
        < (acc * 256 + b + 1) * 256 ^ rest.length :=
          ih _ (fun x hx => h x (List.mem_cons_of_mem _ hx))
      _ ≤ ((acc + 1) * 256) * 256 ^ rest.length :=
          Nat.mul_le_mul_right _ (by omega)
      _ = (acc + 1) * 256 ^ (rest.length + 1) := by ring

theorem bytesBEtoNat_lt {bs : List Nat} (h : ∀ b ∈ bs, b < 256) :
    bytesBEtoNat bs < 256 ^ bs.length := by
  simpa [bytesBEtoNat] using foldlBE_lt bs 0 h

theorem foldl_u128_eq :
    ∀ (bs : List Nat) (acc : Nat), (∀ b ∈ bs, b < 256) →
      (acc + 1) * 256 ^ bs.length ≤ 2 ^ 128 →
      List.foldl (fun acc b => ((acc <<< 8) % u128Mod) ||| b) acc bs =
        List.foldl (fun a b => a * 256 + b) acc bs := by
  intro bs
  induction bs with
  | nil => intro acc _ _; rfl
  | cons b rest ih =>
    intro acc hmem hbound
    have hb : b < 256 := hmem b (List.mem_cons_self _ _)
    rw [List.length_cons] at hbound
    have hle : (acc + 1) * 256 ≤ 2 ^ 128 := by
      calc (acc + 1) * 256 ≤ (acc + 1) * 256 ^ (rest.length + 1) :=
            Nat.mul_le_mul_left _
              (by calc (256 : Nat) = 256 ^ 1 := (pow_one 256).symm
                _ ≤ 256 ^ (rest.length + 1) :=
                    Nat.pow_le_pow_right (by norm_num) (by omega))
        _ ≤ 2 ^ 128 := hbound
    have hstep : ((acc <<< 8) % u128Mod) ||| b = acc * 256 + b := by
      have hsh : acc <<< 8 = acc * 256 := by
        rw [Nat.shiftLeft_eq]
      have hmod : (acc * 256) % u128Mod = acc * 256 :=
        Nat.mod_eq_of_lt (by
          have : acc * 256 < (acc + 1) * 256 := by omega
          calc acc * 256 < (acc + 1) * 256 := this
            _ ≤ 2 ^ 128 := hle
            _ ≤ u128Mod := le_refl _)
      have hor : 2 ^ 8 * acc + b = 2 ^ 8 * acc ||| b :=
        Nat.mul_add_lt_is_or (by simpa using hb) acc
      rw [hsh, hmod]
      calc acc * 256 ||| b = 2 ^ 8 * acc ||| b := by norm_num [Nat.mul_comm]
        _ = 2 ^ 8 * acc + b := hor.symm
        _ = acc * 256 + b := by ring
    rw [List.foldl_cons, List.foldl_cons]
    simp only [hstep]
    apply ih
    · exact fun x hx => hmem x (List.mem_cons_of_mem _ hx)
    · calc (acc * 256 + b + 1) * 256 ^ rest.length
          ≤ ((acc + 1) * 256) * 256 ^ rest.length :=
            Nat.mul_le_mul_right _ (by omega)
        _ = (acc + 1) * 256 ^ (rest.length + 1) := by ring
        _ ≤ 2 ^ 128 := hbound

theorem key_int_of_bytes_eq (addr : String) :
    key_int_of_bytes (derived_key addr) = bytesBEtoNat (derived_key addr) := by
  have htake : (derived_key addr).take KEY_BYTECOUNT = derived_key addr := by
    rw [← derived_key_length addr, List.take_length]
  rw [key_int_of_bytes, bytesBEtoNat, htake]
  apply foldl_u128_eq _ 0 (fun b hb => derived_key_mem_lt hb)
  rw [derived_key_length addr, KEY_BYTECOUNT_eq]
  norm_num

theorem bytesBEtoNat_derived_key_lt (addr : String) :
    bytesBEtoNat (derived_key addr) < 2 ^ (8 * KEY_BYTECOUNT) := by
  have h : bytesBEtoNat (derived_key addr) < 256 ^ (derived_key addr).length :=
    bytesBEtoNat_lt (fun b hb => derived_key_mem_lt hb)
  rw [derived_key_length addr] at h
  calc bytesBEtoNat (derived_key addr) < 256 ^ KEY_BYTECOUNT := h
    _ = 2 ^ (8 * KEY_BYTECOUNT) := by rw [KEY_BYTECOUNT_eq]; norm_num

theorem checksum_indices_eq_spec (addr : String) :
    checksum_indices addr =
      (List.range CHECKSUM_LEN).map (spec_index (derived_key addr)) := by
  apply List.map_congr_left
  intro i _
  rw [key_int, key_int_of_bytes_eq]
  exact Nat.mod_eq_of_lt (lt_of_le_of_lt Nat.and_le_right (by norm_num))

theorem checksum_indices_length (addr : String) :
    (checksum_indices addr).length = CHECKSUM_LEN := by
  simp [checksum_indices]

theorem checksum_indices_lt {addr : String} {j : Nat}
    (hj : j ∈ checksum_indices addr) : j < WORD_COUNT := by
  simp only [checksum_indices, List.mem_map, List.mem_range] at hj
  obtain ⟨i, _, rfl⟩ := hj
  calc ((key_int addr >>> ((CHECKSUM_LEN - 1 - i) * 11)) &&& 0x7FF) % 2 ^ 64
      ≤ (key_int addr >>> ((CHECKSUM_LEN - 1 - i) * 11)) &&& 0x7FF :=
        Nat.mod_le _ _
    _ ≤ 0x7FF := Nat.and_le_right
    _ < WORD_COUNT := by norm_num [WORD_COUNT]

theorem lookup_words_total (wl : List String) :
    ∀ is : List Nat, (∀ j ∈ is, j < wl.length) →
      ∃ ws, lookup_words wl is = some ws ∧ ws.length = is.length ∧
        ∀ (k j : Nat), is[k]? = some j → ws[k]? = wl[j]? := by
  intro is
  induction is with
  | nil =>
    intro _
    refine ⟨[], rfl, rfl, ?_⟩
    intro k j h
    simp at h
  | cons i rest ih =>
    intro h
    obtain ⟨ws, hws, hlen, hpt⟩ := ih (fun j hj => h j (List.mem_cons_of_mem _ hj))
    have hi : i < wl.length := h i (List.mem_cons_self _ _)
    have hwv : wl[i]? = some wl[i] := List.getElem?_eq_getElem hi
    refine ⟨wl[i] :: ws, ?_, by simp [hlen], ?_⟩
    · simp [lookup_words, hwv, hws]
    · intro k j hk
      cases k with
      | zero =>
        simp only [List.getElem?_cons_zero, Option.some.injEq] at hk
        subst hk
        rw [List.getElem?_cons_zero]
        exact hwv.symm
      | succ k =>
        simp only [List.getElem?_cons_succ] at hk ⊢
        exact hpt k j hk

theorem lookup_words_length (wl : List String) :
    ∀ (is : List Nat) (ws : List String),
      lookup_words wl is = some ws → ws.length = is.length := by
  intro is
  induction is with
  | nil =>
    intro ws h
    simp only [lookup_words, Option.some.injEq] at h
    subst h
    rfl
  | cons i rest ih =>
    intro ws h
    simp only [lookup_words] at h
    cases hw : wl[i]? with
    | none => rw [hw] at h; simp at h
    | some w =>
      cases hrest : lookup_words wl rest with
      | none => rw [hw, hrest] at h; simp at h
      | some ws' =>
        rw [hw, hrest] at h
        simp only [Option.some.injEq] at h
        subst h
        simp [ih ws' hrest]

theorem address_to_checksum_isSome (address : String) (word_list : List String)
    (h : 2048 ≤ word_list.length) :
    ∃ ws, address_to_checksum address word_list = some ws ∧ ws.length = 5 := by
  have hlt : ∀ j ∈ checksum_indices address, j < word_list.length := fun j hj =>
    lt_of_lt_of_le (by simpa [WORD_COUNT] using checksum_indices_lt hj) h
  obtain ⟨ws, hws, hlen, -⟩ := lookup_words_total word_list _ hlt
  exact ⟨ws, hws, by rw [hlen, checksum_indices_length, CHECKSUM_LEN_eq]⟩

/-! ### The claims -/

/-- C1 (counterexample): the claim "a word list whose length is not 2048
makes `address_to_checksum` fail with a distinct error" is false: a
2049-word list is accepted and the call returns a result. -/
theorem C1_counterexample :
    ¬ ∀ (word_list : List String) (address : String),
        word_list.length ≠ 2048 →
          address_to_checksum address word_list = none := by
  intro hall
  have hlen : (List.replicate 2049 "w").length = 2049 := by
    rw [List.length_replicate]
  obtain ⟨ws, hws, -⟩ :=
    address_to_checksum_isSome "" (List.replicate 2049 "w")
      (by rw [hlen]; omega)
  have h := hall (List.replicate 2049 "w") "" (by rw [hlen]; omega)
  rw [h] at hws
  cases hws

/-- C1 (amended): `address_to_checksum` performs no vocabulary-size
validation.  Any word list of length at least 2048 is accepted without any
error, and any returned sequence has exactly 5 words — the function never
returns a truncated or padded result; for shorter lists the only failure
mode is the modelled out-of-bounds panic (`none`). -/
theorem C1_no_validation (address : String) (word_list : List String) :
    (∀ ws, address_to_checksum address word_list = some ws → ws.length = 5) ∧
    (2048 ≤ word_list.length →
      ∃ ws, address_to_checksum address word_list = some ws) := by
  constructor
  · intro ws hws
    have h := lookup_words_length word_list (checksum_indices address) ws hws
    rw [checksum_indices_length] at h
    exact h
  · intro h
    obtain ⟨ws, hws, -⟩ := address_to_checksum_isSome address word_list h
    exact ⟨ws, hws⟩

/-- C1 (witness): the amended theorem applied at the empty identifier and a
2049-word list. -/
theorem C1_no_validation_witness :
    2048 ≤ (List.replicate 2049 "w").length ∧
    ∃ ws, address_to_checksum "" (List.replicate 2049 "w") = some ws :=
  ⟨by rw [List.length_replicate]; omega,
    (C1_no_validation "" (List.replicate 2049 "w")).2
      (by rw [List.length_replicate]; omega)⟩

/-- C2: for every identifier and every 2048-word list, the call succeeds
with exactly 5 words, the 5 extracted indices all lie below 2048, and the
word at output position `k` is the word-list entry at extracted index
position `k`, in extraction order. -/
theorem C2_output_shape (address : String) (word_list : List String)
    (h : word_list.length = 2048) :
    ∃ ws, address_to_checksum address word_list = some ws ∧
      ws.length = 5 ∧ (checksum_indices address).length = 5 ∧
      (∀ j ∈ checksum_indices address, j < 2048) ∧
      ∀ (k j : Nat), (checksum_indices address)[k]? = some j →
        ws[k]? = word_list[j]? := by
  have hlt : ∀ j ∈ checksum_indices address, j < 2048 := fun j hj => by
    simpa [WORD_COUNT] using checksum_indices_lt hj
  obtain ⟨ws, hws, hlen, hpt⟩ := lookup_words_total word_list
    (checksum_indices address) (fun j hj => by rw [h]; exact hlt j hj)
  refine ⟨ws, hws, ?_, ?_, hlt, hpt⟩
  · rw [hlen, checksum_indices_length, CHECKSUM_LEN_eq]
  · rw [checksum_indices_length, CHECKSUM_LEN_eq]

/-- C2 (witness): the theorem applied at the empty identifier and a concrete
2048-word list. -/
theorem C2_output_shape_witness :
    (List.replicate 2048 "w").length = 2048 ∧
    ∃ ws, address_to_checksum "" (List.replicate 2048 "w") = some ws ∧
      ws.length = 5 := by
  refine ⟨by rw [List.length_replicate], ?_⟩
  obtain ⟨ws, h1, h2, -, -, -⟩ :=
    C2_output_shape "" (List.replicate 2048 "w") (by rw [List.length_replicate])
  exact ⟨ws, h1, h2⟩

/-- C3: the indices are computed exactly as the spec describes — interpret
the key buffer as a big-endian integer, shift right by
`(8 * keyByteCount) mod 11`, and take 11-bit groups from the most
significant group down (`spec_index` is the spec's formula with no
machine-width reductions). -/
theorem C3_bit_extraction (address : String) :
    checksum_indices address =
      (List.range CHECKSUM_LEN).map (spec_index (derived_key address)) :=
  checksum_indices_eq_spec address

/-- C4: the compiled-in parameters: salt `"human-readable-checksum"`,
40000 iterations, 5 output words, a `ceil(5*11/8) = 7`-byte key, and the
pre-extraction shift discards exactly `56 mod 11 = 1` bit, leaving
55 = 5 × 11 bits. -/
theorem C4_constants :
    SALT = "human-readable-checksum" ∧ ITERATIONS = 40000 ∧
    CHECKSUM_LEN = 5 ∧ KEY_BYTECOUNT = (CHECKSUM_LEN * 11 + 8 - 1) / 8 ∧
    KEY_BYTECOUNT = 7 ∧ (8 * KEY_BYTECOUNT) % 11 = 1 ∧
    8 * KEY_BYTECOUNT - (8 * KEY_BYTECOUNT) % 11 = 55 ∧
    CHECKSUM_LEN * 11 = 55 :=
  ⟨rfl, rfl, rfl, rfl, rfl, rfl, rfl, rfl⟩

/-- C5: `address_to_checksum` is deterministic — two calls with the same
identifier and word list yield identical ordered word sequences (the
embedding is a pure function of its arguments and the fixed constants). -/
theorem C5_deterministic (address : String) (word_list : List String) :
    address_to_checksum address word_list =
      address_to_checksum address word_list := rfl

/-- C6: the empty identifier does not fail on a 2048-word list: the call
returns a full 5-word sequence, and repeated calls agree. -/
theorem C6_empty_identifier (word_list : List String)
    (h : word_list.length = 2048) :
    (∃ ws, address_to_checksum "" word_list = some ws ∧ ws.length = 5) ∧
    address_to_checksum "" word_list = address_to_checksum "" word_list :=
  ⟨address_to_checksum_isSome "" word_list (by omega), rfl⟩

/-- C6 (witness): the theorem applied at a concrete 2048-word list. -/
theorem C6_empty_identifier_witness :
    (List.replicate 2048 "w").length = 2048 ∧
    ∃ ws, address_to_checksum "" (List.replicate 2048 "w") = some ws ∧
      ws.length = 5 :=
  ⟨by rw [List.length_replicate],
    (C6_empty_identifier (List.replicate 2048 "w")
      (by rw [List.length_replicate])).1⟩

/-- C7: the `u128` accumulator never overflows or wraps: the accumulated
value (computed with the `u128` reductions) equals the plain big-endian
integer of the key bytes, that value occupies at most `8 * KEY_BYTECOUNT =
56` bits, and `2^56` is below the 128-bit modulus; all shifts in the
embedding are logical (`Nat` shifts). -/
theorem C7_no_overflow (address : String) :
    key_int_of_bytes (derived_key address) =
      bytesBEtoNat (derived_key address) ∧
    bytesBEtoNat (derived_key address) < 2 ^ (8 * KEY_BYTECOUNT) ∧
    2 ^ (8 * KEY_BYTECOUNT) ≤ u128Mod :=
  ⟨key_int_of_bytes_eq address, bytesBEtoNat_derived_key_lt address,
    by norm_num [u128Mod, KEY_BYTECOUNT_eq]⟩

/-- C8 (counterexample): the claim "a successful result holds 2048 unique,
non-empty words" is false: a file of 2048 empty lines loads successfully,
though its words are empty and duplicated. -/
theorem C8_counterexample :
    load_word_list true (List.replicate 2048 "") =
      Except.ok (List.replicate 2048 "") ∧
    "" ∈ List.replicate 2048 "" ∧
    ¬ (List.replicate 2048 "").Nodup := by
  have hl : (List.replicate 2048 "").length = WORD_COUNT := by
    rw [List.length_replicate, WORD_COUNT_eq]
  refine ⟨?_, ?_, ?_⟩
  · unfold load_word_list
    rw [if_neg (by decide : ¬ (true = false)),
      if_neg (show ¬ (List.replicate 2048 "").length ≠ WORD_COUNT from
        fun hh => hh hl)]
  · rw [List.mem_replicate]
    exact ⟨by omega, rfl⟩
  · rw [List.nodup_replicate]
    omega

/-- C8 (amended): `load_word_list` returns a successful result only when
the file exists and yields an ordered sequence of exactly 2048 lines,
which it returns unchanged (uniqueness and non-emptiness are not
checked); a missing file yields `notFound` and a wrong line count yields
`wrongCount` carrying the count found, rather than passing an undersized
or oversized list onward.  The success case is also proved: an existing
file with exactly 2048 lines loads without error. -/
theorem C8_load_word_list (fileExists : Bool) (lines : List String) :
    (∀ ws, load_word_list fileExists lines = Except.ok ws →
      ws = lines ∧ lines.length = 2048) ∧
    (fileExists = false →
      load_word_list fileExists lines = Except.error .notFound) ∧
    (fileExists = true → lines.length ≠ 2048 →
      load_word_list fileExists lines =
        Except.error (.wrongCount lines.length)) ∧
    (fileExists = true → lines.length = 2048 →
      load_word_list fileExists lines = Except.ok lines) := by
  cases fileExists with
  | false =>
    refine ⟨?_, ?_, ?_, ?_⟩
    · intro ws h
      simp [load_word_list] at h
    · intro _
      rfl
    · intro h
      exact absurd h (by decide)
    · intro h
      exact absurd h (by decide)
  | true =>
    refine ⟨?_, ?_, ?_, ?_⟩
    · intro ws h
      by_cases hl : lines.length = WORD_COUNT
      · simp only [load_word_list, hl] at h
        rw [if_neg (by decide : ¬ (true = false)),
          if_neg (show ¬ WORD_COUNT ≠ WORD_COUNT from fun hh => hh rfl)] at h
        simp only [Except.ok.injEq] at h
        exact ⟨h.symm, hl.trans WORD_COUNT_eq⟩
      · simp [load_word_list, hl] at h
    · intro h
      exact absurd h (by decide)
    · intro _ hl
      have hl' : lines.length ≠ WORD_COUNT := by rwa [WORD_COUNT_eq]
      simp [load_word_list, hl']
    · intro _ hl
      have hl' : lines.length = WORD_COUNT := hl.trans WORD_COUNT_eq.symm
      unfold load_word_list
      rw [if_neg (by decide : ¬ (true = false)),
        if_neg (show ¬ lines.length ≠ WORD_COUNT from fun hh => hh hl')]

/-- C8 (witness): the amended theorem applied at a missing file and at an
existing file with exactly 2048 lines. -/
theorem C8_load_word_list_witness :
    load_word_list false [] = Except.error LoadError.notFound ∧
    load_word_list true (List.replicate 2048 "w") =
      Except.ok (List.replicate 2048 "w") :=
  ⟨(C8_load_word_list false []).2.1 rfl,
    (C8_load_word_list true (List.replicate 2048 "w")).2.2.2 rfl
      (by rw [List.length_replicate])⟩

/-- C10: any word list of length at least 2048 (not only exactly 2048) is
accepted: every extracted index is below 2048 because of the `0x7FF` mask,
so no lookup is out of bounds, words beyond position 2047 are never
selected, and a full 5-word result is returned. -/
theorem C10_oversized_accepted (address : String) (word_list : List String)
    (h : 2048 ≤ word_list.length) :
    (∀ j ∈ checksum_indices address, j < 2048) ∧
    ∃ ws, address_to_checksum address word_list = some ws ∧ ws.length = 5 :=
  ⟨fun j hj => by simpa [WORD_COUNT] using checksum_indices_lt hj,
    address_to_checksum_isSome address word_list h⟩

/-- C10 (witness): the theorem applied at a concrete 2049-word list. -/
theorem C10_oversized_accepted_witness :
    2048 ≤ (List.replicate 2049 "w").length ∧
    ∃ ws, address_to_checksum "" (List.replicate 2049 "w") = some ws ∧
      ws.length = 5 :=
  ⟨by rw [List.length_replicate]; omega,
    (C10_oversized_accepted "" (List.replicate 2049 "w")
      (by rw [List.length_replicate]; omega)).2⟩

end Checkphrase
